import Mathlib

/-!
# Verification of the mitmproxy HTTP flow message model

A shallow embedding of `libmproxy/models/http.py`: the message mixin
(decode / encode / replace / state snapshots), the scoped-decode helper
`decoded`, the request / response models with replay `refresh`, and the
flow model (copy / match / replace).  External collaborators that are not
part of the given source file (the content codec, the ordered caseless
header dictionary, `safe_subn`, RFC-822 date handling, cookie parsing,
the filter engine and the generic state serializer) are modelled from the
specification, each marked `Modelled from the spec:` in its doc comment.

Python strings (header values, bodies) are modelled as Lean `String`;
floating-point epoch timestamps are modelled as `Int` seconds; a raised
exception is modelled as an `Option`/sum result of `none`.
-/

set_option autoImplicit false

namespace Mitm

/-! ## Textual substitution (`libmproxy.utils.safe_subn`) -/

/-- Core of the substitution: left-to-right, non-overlapping replacement of
the pattern by the replacement in a character list, returning the rewritten
list and the number of replacements made.  The fuel argument keeps the
recursion structural; every step consumes at least one character, so fuel
equal to the input length never runs out. -/
def subnAux (pat repl : List Char) : Nat → List Char → List Char × Nat
  | _, [] => ([], 0)
  | 0, l => (l, 0)
  | fuel + 1, c :: rest =>
    if pat ≠ [] ∧ pat.isPrefixOf (c :: rest) then
      let r := subnAux pat repl fuel ((c :: rest).drop pat.length)
      (repl ++ r.1, r.2 + 1)
    else
      let r := subnAux pat repl fuel rest
      (c :: r.1, r.2)

/-- Modelled from the spec: `libmproxy.utils.safe_subn` (absent from the
given sources) applies a textual pattern substitution to a string and
returns the new string together with the number of substitutions made. -/
def safe_subn (pat repl s : String) : String × Nat :=
  let r := subnAux pat.toList repl.toList s.toList.length s.toList
  (String.mk r.1, r.2)

/-! ## Content codec (`netlib.encoding`) -/

/-- Modelled from the spec: the enumerated closed set of supported
content-encoding names exposed by the external codec library. -/
def ENCODINGS : List String := ["identity", "gzip", "deflate"]

/-- Magic prefix used by the modelled codec for each non-identity scheme. -/
def encMagic (e : String) : List Char :=
  if e = "gzip" then ['G', 'Z', ':']
  else if e = "deflate" then ['D', 'F', ':'] else []

/-- Modelled from the spec: `netlib.encoding.encode` — infallible for any
supported name; the model prepends a scheme-specific magic prefix. -/
def encEncode (e : String) (b : String) : String :=
  String.mk (encMagic e ++ b.toList)

/-- Modelled from the spec: `netlib.encoding.decode` — returns the decoded
bytes, or a failure (`none`, Python `None`) on malformed compressed data;
the model requires and strips the scheme's magic prefix. -/
def encDecode (e : String) (b : String) : Option String :=
  if e = "identity" then some b
  else if (encMagic e).isPrefixOf b.toList then
    some (String.mk (b.toList.drop (encMagic e).length))
  else none

/-! ## Ordered caseless header dictionary (`netlib.odict.ODictCaseless`) -/

/-- Modelled from the spec: an ordered mapping from header name to values —
name comparison case-insensitive, insertion order preserved, duplicate
names keeping all values.  Stored as an ordered list of name/value pairs. -/
structure ODictCaseless where
  lst : List (String × String)
deriving DecidableEq, Repr

/-- ASCII lower-casing of one character (Python `str.lower()` restricted
to the ASCII header names this model handles). -/
def lowerChar (c : Char) : Char :=
  if 65 ≤ c.toNat ∧ c.toNat ≤ 90 then Char.ofNat (c.toNat + 32) else c

/-- ASCII lower-casing of a string, as a character list. -/
def lowerStr (s : String) : List Char := s.toList.map lowerChar

namespace ODictCaseless

/-- Case-insensitive key comparison (`_kconv`). -/
def keyMatch (k k' : String) : Bool := lowerStr k = lowerStr k'

/-- All values stored under a (caseless) key, in order. -/
def getAll (h : ODictCaseless) (k : String) : List String :=
  (h.lst.filter (fun p => keyMatch p.1 k)).map Prod.snd

/-- `get_first`: the first value under the key, if any. -/
def get_first (h : ODictCaseless) (k : String) : Option String :=
  (h.getAll k).head?

/-- `k in h`: caseless containment. -/
def hasKey (h : ODictCaseless) (k : String) : Bool :=
  !(h.getAll k).isEmpty

/-- `del h[k]`: removes every entry under the (caseless) key. -/
def del (h : ODictCaseless) (k : String) : ODictCaseless :=
  ⟨h.lst.filter (fun p => !keyMatch p.1 k)⟩

/-- `h[k] = vs`: removes prior entries under the key and appends the new
values (overwriting any prior value). -/
def set (h : ODictCaseless) (k : String) (vs : List String) : ODictCaseless :=
  ⟨(h.del k).lst ++ vs.map (fun v => (k, v))⟩

/-- `h.copy()`: value-level copy of the contents (object identity is
handled separately in the heap model below). -/
def copy (h : ODictCaseless) : ODictCaseless := ⟨h.lst⟩

/-- Modelled from the spec: `ODict.replace` applies the substitution to
every header value, returning the rewritten dictionary and the total
substitution count. -/
def replace (pat repl : String) (h : ODictCaseless) : ODictCaseless × Nat :=
  let step := h.lst.map (fun p =>
    let r := safe_subn pat repl p.2
    ((p.1, r.1), r.2))
  (⟨step.map Prod.fst⟩, (step.map Prod.snd).sum)

end ODictCaseless

/-! ## Message model (`MessageMixin`) -/

/-- The three mutually exclusive body states: a captured byte sequence
(possibly empty), or the `CONTENT_MISSING` sentinel (content existed on the
wire but was not captured; the sentinel is the Python value `0`). -/
inductive BodyVal where
  | missing
  | bytes (s : String)
deriving DecidableEq, Repr

/-- Python truthiness of the body: `CONTENT_MISSING` (= 0) and the empty
string are falsy. -/
def BodyVal.truthy : BodyVal → Bool
  | .missing => false
  | .bytes s => s ≠ ""

/-- The attributes of `MessageMixin` that the claims touch: httpversion,
headers, body and the two (nullable) transmission timestamps. -/
structure MessageS where
  httpversion : Nat × Nat
  headers : ODictCaseless
  body : BodyVal
  timestamp_start : Option Int
  timestamp_end : Option Int
deriving DecidableEq, Repr

namespace MessageMixin

/-- `MessageMixin.get_decoded_content`: non-mutating; returns the body
unchanged if it is falsy or the first `content-encoding` value is not a
supported encoding, else the codec's decode result (`none` on failure). -/
def get_decoded_content (m : MessageS) : Option BodyVal :=
  let ce := m.headers.get_first "content-encoding"
  match ce, m.body with
  | some c, .bytes s =>
    if s = "" ∨ c ∉ ENCODINGS then some m.body
    else (encDecode c s).map .bytes
  | _, _ => some m.body

/-- `MessageMixin.decode`: if the body is falsy or the first
`content-encoding` value is not supported, returns `False` leaving the
message unchanged; if the codec fails, returns `False` leaving the message
unchanged; on success replaces the body with the decoded bytes, deletes
the `content-encoding` header and returns `True`. -/
def decode (m : MessageS) : Bool × MessageS :=
  let ce := m.headers.get_first "content-encoding"
  match ce, m.body with
  | some c, .bytes s =>
    if s = "" ∨ c ∉ ENCODINGS then (false, m)
    else
      match encDecode c s with
      | none => (false, m)
      | some d =>
        (true, { m with body := .bytes d, headers := m.headers.del "content-encoding" })
  | _, _ => (false, m)

/-- `MessageMixin.encode e`: sets the body to the encoded bytes and sets
`content-encoding` to exactly `[e]`.  (On the `CONTENT_MISSING` sentinel
the model encodes the empty string; no claim exercises that state.) -/
def encode (e : String) (m : MessageS) : MessageS :=
  let b := match m.body with
    | .missing => ""
    | .bytes s => s
  { m with body := .bytes (encEncode e b),
           headers := m.headers.set "content-encoding" [e] }

end MessageMixin

/-! ## Scoped decode (`decoded` context manager) -/

namespace decoded

/-- `decoded.__init__`: remember the first `content-encoding` value if it
names a supported encoding, else remember nothing. -/
def init (m : MessageS) : Option String :=
  match m.headers.get_first "content-encoding" with
  | some ce => if ce ∈ ENCODINGS then some ce else none
  | none => none

/-- `decoded.__enter__`: if an encoding was remembered, decode the wrapped
message in place (the success result is discarded); otherwise no action. -/
def enter (rem : Option String) (m : MessageS) : MessageS :=
  match rem with
  | some _ => (MessageMixin.decode m).2
  | none => m

/-- `decoded.__exit__`: runs on every exit path; if an encoding was
remembered, unconditionally re-encode with it; otherwise no action. -/
def exit (rem : Option String) (m : MessageS) : MessageS :=
  match rem with
  | some c => MessageMixin.encode c m
  | none => m

end decoded

/-- `MessageMixin.replace`: inside the scoped decode, substitute in the
body; after re-encoding, substitute in every header value; return the
total count.  `none` models the exception `safe_subn` raises when the body
is the `CONTENT_MISSING` sentinel (a non-string). -/
def MessageMixin.replace (pat repl : String) (m : MessageS) : Option (Nat × MessageS) :=
  let rem := decoded.init m
  let m1 := decoded.enter rem m
  match m1.body with
  | .missing => none
  | .bytes s =>
    let r := safe_subn pat repl s
    let m2 := decoded.exit rem { m1 with body := .bytes r.1 }
    let hr := ODictCaseless.replace pat repl m2.headers
    some (r.2 + hr.2, { m2 with headers := hr.1 })

/-! ## RFC-822-style dates (`email.utils` parsedate_tz / mktime_tz / formatdate) -/

/-- Modelled from the spec: `email.utils.formatdate` (absent external
library) renders an epoch instant as an RFC-822-style date string; the
model uses an injective unary rendering so that parsing is exact. -/
def formatdate (t : Int) : String :=
  String.mk ('D' :: 'A' :: 'T' :: 'E' ::
    (if 0 ≤ t then '+' :: List.replicate t.toNat 'x'
     else '-' :: List.replicate (-t).toNat 'x'))

/-- Length of a pure-`'x'` unary tail, `none` if any other character occurs. -/
def unaryLen : List Char → Option Nat
  | [] => some 0
  | c :: r => if c = 'x' then (unaryLen r).map (· + 1) else none

/-- Modelled from the spec: the composition `mktime_tz ∘ parsedate_tz` —
parse an RFC-822-style date string to an epoch instant, or fail (`none`)
on an unparseable string. -/
def parsedate (s : String) : Option Int :=
  match s.toList with
  | 'D' :: 'A' :: 'T' :: 'E' :: '+' :: r => (unaryLen r).map Int.ofNat
  | 'D' :: 'A' :: 'T' :: 'E' :: '-' :: r => (unaryLen r).map (fun n => -(Int.ofNat n))
  | _ => none

/-! ## Cookies (`Cookie.SimpleCookie`) -/

/-- Modelled from the spec: a parsed `set-cookie` value — the cookie's
name/value pair and its ordered attribute list. -/
structure CookieRec where
  name : String
  value : String
  attrs : List (String × String)
deriving DecidableEq, Repr

/-- Split `"k=v"` at the first `=` (best-effort tokenizer for the modelled
cookie parser). -/
def splitEq (s : String) : String × String :=
  match s.splitOn "=" with
  | [] => (s, "")
  | k :: rest => (k, String.intercalate "=" rest)

/-- Modelled from the spec: `Cookie.SimpleCookie` string parsing (external
standard library); best-effort structural tokenizer.  Only its composition
with the structural rewrite `HTTPResponse.refresh_cookie` is
source-faithful; no claim depends on this tokenizer itself. -/
def cookieParse (s : String) : CookieRec :=
  match s.splitOn "; " with
  | [] => ⟨"", "", []⟩
  | kv :: attrs =>
    let nv := splitEq kv
    ⟨nv.1, nv.2, attrs.map splitEq⟩

/-- Modelled from the spec: `SimpleCookie.output` serialization of a
parsed cookie back to a header value string. -/
def cookieOut (c : CookieRec) : String :=
  c.name ++ "=" ++ c.value ++
    String.join (c.attrs.map (fun p => "; " ++ p.1 ++ "=" ++ p.2))

/-! ## Response model (`HTTPResponse`) -/

/-- The `HTTPResponse` attributes the claims touch: the shared message
attributes plus status code, reason phrase and the replay/stream flags. -/
structure HTTPResponseS where
  status_code : Nat
  msg : String
  base : MessageS
  is_replay : Bool
  stream : Bool
deriving DecidableEq, Repr

namespace HTTPResponse

/-- `HTTPResponse._refresh_cookie` on the parsed cookie structure: for the
cookie's attributes, a parseable `expires` date is shifted by `delta` and
rewritten; an unparseable `expires` attribute is deleted; everything else
is kept. -/
def refresh_cookie (delta : Int) (c : CookieRec) : CookieRec :=
  { c with attrs := c.attrs.filterMap (fun p =>
      if p.1 = "expires" then
        match parsedate p.2 with
        | some d => some (p.1, formatdate (d + delta))
        | none => none
      else some p) }

/-- `HTTPResponse._refresh_cookie` on the header value string: parse,
rewrite, serialize. -/
def refresh_cookie_str (delta : Int) (s : String) : String :=
  cookieOut (refresh_cookie delta (cookieParse s))

/-- One step of the `refresh` header loop: if the header is present, parse
its first value; if parseable, replace the header by the single
reformatted shifted date; otherwise leave the headers untouched. -/
def refreshHeaderStep (delta : Int) (h : ODictCaseless) (name : String) : ODictCaseless :=
  if h.hasKey name then
    match h.get_first name with
    | some v =>
      match parsedate v with
      | some d => h.set name [formatdate (d + delta)]
      | none => h
    | none => h
  else h

/-- The three freshness headers adjusted by `refresh`, in loop order. -/
def refresh_headers : List String := ["date", "expires", "last-modified"]

/-- The trailing loop of `refresh`: rewrite every `set-cookie` value
independently, and only if any were present replace the `set-cookie`
header set with the rewritten flat list. -/
def refreshCookiePhase (delta : Int) (h : ODictCaseless) : ODictCaseless :=
  let c := (h.getAll "set-cookie").map (refresh_cookie_str delta)
  if c.isEmpty then h else h.set "set-cookie" c

/-- `HTTPResponse.refresh now`: `delta = now - timestamp_start` (`none`
models the exception raised when `timestamp_start` is null); shift the
three freshness headers in loop order, then run the `set-cookie` loop.
(`now` is always taken as given; the source's fallback to the current
wall clock when `now` is absent is outside the model.) -/
def refresh (now : Int) (r : HTTPResponseS) : Option HTTPResponseS :=
  match r.base.timestamp_start with
  | none => none
  | some t0 =>
    some { r with base := { r.base with
      headers := refreshCookiePhase (now - t0)
        (refresh_headers.foldl (refreshHeaderStep (now - t0)) r.base.headers) } }

end HTTPResponse

/-! ## Request model (`HTTPRequest`) -/

/-- The `HTTPRequest` attributes the claims touch: the shared message
attributes plus the request line fields and flags.  `scheme` and `path`
are nullable (authority-form). -/
structure HTTPRequestS where
  form_in : String
  method : String
  scheme : Option String
  host : String
  port : Nat
  path : Option String
  base : MessageS
  form_out : String
  stickycookie : Bool
  stickyauth : Bool
  is_replay : Bool
deriving DecidableEq, Repr

/-- `HTTPRequest.replace`: the shared message replace (headers and body),
then the same substitution on the path, summing the counts.  `none` models
the exception raised when the body is the `CONTENT_MISSING` sentinel or
the path is null (both are non-strings under `safe_subn`). -/
def HTTPRequest.replace (pat repl : String) (r : HTTPRequestS) : Option (Nat × HTTPRequestS) :=
  match MessageMixin.replace pat repl r.base with
  | none => none
  | some (c, m2) =>
    match r.path with
    | none => none
    | some p =>
      let pr := safe_subn pat repl p
      some (c + pr.2, { r with base := m2, path := some pr.1 })

/-! ## Flow model (`HTTPFlow`)

Aliasing matters for `HTTPFlow.copy` (deep-copied messages versus shared
connection references), so the flow model is heap-based: header objects
live in a store addressed by references, and connections/errors are
opaque references owned elsewhere. -/

/-- A heap of header objects: an allocation counter and a store.  All
references below `next` are allocated. -/
structure Heap where
  next : Nat
  store : Nat → ODictCaseless

/-- Write a header object to a heap cell. -/
def Heap.write (σ : Heap) (i : Nat) (h : ODictCaseless) : Heap :=
  { σ with store := fun j => if j = i then h else σ.store j }

/-- A message as an object: its headers are a reference into the heap,
its body is a (shared, immutable-by-convention) value. -/
structure MessageRef where
  headersRef : Nat
  bodyV : BodyVal
deriving DecidableEq, Repr

/-- `MessageMixin.copy` on the heap: a shallow copy of the message whose
`headers` field is re-pointed at a freshly allocated copy of the header
object (`c = copy.copy(self); c.headers = self.headers.copy()`). -/
def MessageMixin.copyH (σ : Heap) (m : MessageRef) : Heap × MessageRef :=
  let r := σ.next
  ({ next := r + 1,
     store := fun j => if j = r then (σ.store m.headersRef).copy else σ.store j },
   { m with headersRef := r })

/-- The `HTTPFlow` attributes the claims touch: owned request/response
(nullable), plus the error and connection references owned elsewhere. -/
structure FlowH where
  request : Option MessageRef
  response : Option MessageRef
  error : Option Nat
  client_conn : Nat
  server_conn : Nat

/-- `HTTPFlow.copy`: the base `Flow.copy` (modelled from the spec: a
shallow copy sharing the error and connection references), then the
request and response, when present, are replaced by their own deep
`copy()`. -/
def HTTPFlow.copy (σ : Heap) (f : FlowH) : Heap × FlowH :=
  let s1 := match f.request with
    | some r => let p := MessageMixin.copyH σ r; (p.1, some p.2)
    | none => (σ, none)
  let s2 := match f.response with
    | some r => let p := MessageMixin.copyH s1.1 r; (p.1, some p.2)
    | none => (s1.1, none)
  (s2.1, { f with request := s1.2, response := s2.2 })

/-- All header references of the flow's messages are allocated. -/
def FlowH.wfB (σ : Heap) (f : FlowH) : Bool :=
  (match f.request with | some r => r.headersRef < σ.next | none => true) &&
  (match f.response with | some r => r.headersRef < σ.next | none => true)

/-- The result of `HTTPFlow.match`: a boolean, or the raised
`ValueError` on an invalid filter expression. -/
inductive MatchRes where
  | ok (b : Bool)
  | valueError
deriving DecidableEq, Repr

/-- The argument to `HTTPFlow.match`: `None`, a textual filter expression,
or an already compiled predicate. -/
inductive FilterArg where
  | nofilter
  | text (s : String)
  | pred (p : FlowH → Bool)

/-- Modelled from the spec: the external filter engine's
`compile(string) -> predicate | compileError` (`filt.parse`, absent from
the given sources).  The minimal model accepts the expression `"true"`
(constant-true predicate) and `"~q"` (request present) and reports a
compile failure (`none`) on anything else — including the empty string,
which the engine's grammar does not accept. -/
def filtParse (s : String) : Option (FlowH → Bool) :=
  if s = "true" then some (fun _ => true)
  else if s = "~q" then some (fun fl => fl.request.isSome)
  else none

/-- `HTTPFlow.match`: a string argument is compiled — a compile failure
raises `ValueError`; a (truthy) compiled predicate is evaluated on the
flow; a null filter matches unconditionally. -/
def HTTPFlow.matchf (fl : FlowH) (f : FilterArg) : MatchRes :=
  match f with
  | .text s =>
    match filtParse s with
    | none => .valueError
    | some p => .ok (p fl)
  | .pred p => .ok (p fl)
  | .nofilter => .ok true

/-! ## State snapshots (`stateobject` / `MessageMixin.get_state`) -/

/-- A serialized attribute value in the generic value tree. -/
inductive SVal where
  | vnull
  | vint (n : Int)
  | vstr (s : String)
  | vtuple (p : Nat × Nat)
  | vpairs (l : List (String × String))
deriving DecidableEq, Repr

/-- The serialized body attribute: the raw string, or the
`CONTENT_MISSING` sentinel (the Python value `0`). -/
def bodySVal : BodyVal → SVal
  | .missing => .vint 0
  | .bytes s => .vstr s

/-- A serialized nullable timestamp. -/
def timeSVal : Option Int → SVal
  | none => .vnull
  | some t => .vint t

/-- `MessageMixin.get_state short`: the generic per-attribute serializer is
modelled from the spec (full mode serializes every declared attribute;
short mode omits the attributes marked long — the body).  On top of that,
the short form appends `contentLength`: the body length if the body is
truthy, the null sentinel if the body is `CONTENT_MISSING`, else `0`. -/
def MessageMixin.get_state (short : Bool) (m : MessageS) : List (String × SVal) :=
  let base : List (String × SVal) :=
    [("httpversion", .vtuple m.httpversion),
     ("headers", .vpairs m.headers.lst)]
    ++ (if short then [] else [("body", bodySVal m.body)])
    ++ [("timestamp_start", timeSVal m.timestamp_start),
        ("timestamp_end", timeSVal m.timestamp_end)]
  if short then
    base ++ [("contentLength",
      match m.body with
      | .bytes s => if s ≠ "" then .vint s.length else .vint 0
      | .missing => .vnull)]
  else base

/-! ## Sample concrete inputs (used by the witness theorems) -/

/-- A header dictionary carrying a gzip content-encoding. -/
def sampleHeaders : ODictCaseless :=
  ⟨[("Content-Encoding", "gzip"), ("Host", "example.com")]⟩

/-- A message whose body is a well-formed gzip encoding of `"hello foo"`. -/
def sampleMsg : MessageS :=
  ⟨(1, 1), sampleHeaders, .bytes (encEncode "gzip" "hello foo"), some 0, some 1⟩

/-- A response ready for `refresh`: transmitted at instant 0, carrying a
parseable `date` header and no `set-cookie` header. -/
def sampleResp : HTTPResponseS :=
  ⟨200, "OK", ⟨(1, 1), ⟨[("Date", formatdate 0)]⟩, .bytes "", some 0, some 1⟩,
   false, false⟩

/-- A request around `sampleMsg` with a concrete path. -/
def sampleReq : HTTPRequestS :=
  ⟨"relative", "GET", some "http", "example.com", 80, some "/foo/bar",
   sampleMsg, "relative", false, false, false⟩

/-- A flow with no request or response (enough for `match`). -/
def flow0 : FlowH := ⟨none, none, none, 0, 0⟩

/-- A heap with two allocated header objects. -/
def sampleHeap : Heap := ⟨2, fun _ => ⟨[("A", "b")]⟩⟩

/-- A flow owning two messages whose header references live in
`sampleHeap`, sharing connection references 3 and 4. -/
def sampleFlow : FlowH :=
  ⟨some ⟨0, .bytes "x"⟩, some ⟨1, .missing⟩, some 7, 3, 4⟩

/-! # Helper lemmas -/

namespace ODictCaseless

theorem keyMatch_refl (k : String) : keyMatch k k = true := by
  simp [keyMatch]

theorem getAll_mk_append (l1 l2 : List (String × String)) (k : String) :
    getAll ⟨l1 ++ l2⟩ k = getAll ⟨l1⟩ k ++ getAll ⟨l2⟩ k := by
  simp [getAll, List.filter_append]

theorem getAll_del_self (h : ODictCaseless) (k : String) :
    (h.del k).getAll k = [] := by
  simp only [del, getAll, List.filter_filter]
  rw [show (fun (a : String × String) => keyMatch a.1 k && !keyMatch a.1 k)
        = (fun _ => false) from funext fun a => by cases ha : keyMatch a.1 k <;> simp [ha]]
  simp

theorem getAll_del_ne (h : ODictCaseless) (k k' : String)
    (hne : lowerStr k ≠ lowerStr k') :
    (h.del k).getAll k' = h.getAll k' := by
  have key : ∀ p : String × String,
      (keyMatch p.1 k' && !keyMatch p.1 k) = keyMatch p.1 k' := by
    intro p
    by_cases hq : keyMatch p.1 k'
    · have hq' : lowerStr p.1 = lowerStr k' := by simpa [keyMatch] using hq
      have hp : keyMatch p.1 k = false := by
        simp only [keyMatch, hq', decide_eq_false_iff_not]
        exact fun hh => hne hh.symm
      simp [hq, hp]
    · simp [hq]
  simp only [del, getAll, List.filter_filter]
  rw [List.filter_congr (fun a _ => key a)]

theorem getAll_set_self (h : ODictCaseless) (k : String) (vs : List String) :
    (h.set k vs).getAll k = vs := by
  have h1 : getAll ⟨(h.del k).lst⟩ k = [] := getAll_del_self h k
  simp only [set]
  rw [getAll_mk_append, h1]
  simp only [List.nil_append, getAll]
  induction vs with
  | nil => rfl
  | cons v t ih =>
    simpa [keyMatch_refl k] using ih

theorem getAll_set_ne (h : ODictCaseless) (k k' : String) (vs : List String)
    (hne : lowerStr k ≠ lowerStr k') :
    (h.set k vs).getAll k' = h.getAll k' := by
  simp only [set]
  rw [getAll_mk_append]
  have h2 : getAll ⟨vs.map (fun v => (k, v))⟩ k' = [] := by
    simp only [getAll]
    induction vs with
    | nil => rfl
    | cons v t ih =>
      have hkk : keyMatch k k' = false := by
        simp [keyMatch, hne]
      simp only [List.map_cons, List.filter_cons, hkk]
      exact ih
  rw [h2]
  have h3 : (del h k).getAll k' = h.getAll k' := getAll_del_ne h k k' hne
  simpa [List.append_nil] using h3

theorem getAll_replace (pat repl : String) (h : ODictCaseless) (k : String) :
    (replace pat repl h).1.getAll k
      = (h.getAll k).map (fun v => (safe_subn pat repl v).1) := by
  simp only [replace, getAll]
  induction h.lst with
  | nil => rfl
  | cons p t ih =>
    by_cases hp : keyMatch p.1 k
    · simpa [hp] using ih
    · simpa [hp] using ih

theorem get_first_eq_head (h : ODictCaseless) (k : String) :
    h.get_first k = (h.getAll k).head? := rfl

theorem hasKey_of_get_first (h : ODictCaseless) (k v : String)
    (hv : h.get_first k = some v) : h.hasKey k = true := by
  simp only [get_first] at hv
  simp only [hasKey, Bool.not_eq_true']
  cases hq : h.getAll k with
  | nil => rw [hq] at hv; simp at hv
  | cons a t => simp

end ODictCaseless

theorem encDecode_encEncode (e b : String) :
    encDecode e (encEncode e b) = some b := by
  by_cases he : e = "identity"
  · subst he
    simp [encDecode, encEncode, encMagic]
  · have hpre : (encMagic e).isPrefixOf ((encEncode e b).toList) = true := by
      simp [encEncode, List.isPrefixOf_iff_prefix]
    simp [encDecode, he, hpre, encEncode]

theorem encEncode_gzip_ne_empty (b : String) : encEncode "gzip" b ≠ "" := by
  simp only [encEncode, encMagic, if_pos rfl]
  intro h
  have : ('G' :: 'Z' :: ':' :: b.toList) = ([] : List Char) := congrArg String.toList h
  simp at this

theorem encDecode_gzip_ne_empty (s d : String)
    (h : encDecode "gzip" s = some d) : s ≠ "" := by
  intro hs
  subst hs
  simp [encDecode, encMagic, List.isPrefixOf] at h

theorem unaryLen_replicate (n : Nat) :
    unaryLen (List.replicate n 'x') = some n := by
  induction n with
  | zero => rfl
  | succ k ih => simp [List.replicate, unaryLen, ih]

theorem parsedate_formatdate (t : Int) : parsedate (formatdate t) = some t := by
  by_cases ht : 0 ≤ t
  · simp only [formatdate, if_pos ht, parsedate]
    simp [unaryLen_replicate, Int.toNat_of_nonneg ht]
  · simp only [formatdate, if_neg ht, parsedate]
    have h1 : 0 ≤ -t := by omega
    simp [unaryLen_replicate, Int.toNat_of_nonneg h1]

theorem gzip_mem_ENCODINGS : "gzip" ∈ ENCODINGS := by decide

theorem lsne_sc_date : lowerStr "set-cookie" ≠ lowerStr "date" := by decide
theorem lsne_sc_exp : lowerStr "set-cookie" ≠ lowerStr "expires" := by decide
theorem lsne_sc_lm : lowerStr "set-cookie" ≠ lowerStr "last-modified" := by decide
theorem lsne_date_exp : lowerStr "date" ≠ lowerStr "expires" := by decide
theorem lsne_exp_date : lowerStr "expires" ≠ lowerStr "date" := by decide
theorem lsne_date_lm : lowerStr "date" ≠ lowerStr "last-modified" := by decide
theorem lsne_lm_date : lowerStr "last-modified" ≠ lowerStr "date" := by decide
theorem lsne_exp_lm : lowerStr "expires" ≠ lowerStr "last-modified" := by decide
theorem lsne_lm_exp : lowerStr "last-modified" ≠ lowerStr "expires" := by decide
theorem lsne_date_sc : lowerStr "date" ≠ lowerStr "set-cookie" := by decide
theorem lsne_exp_sc : lowerStr "expires" ≠ lowerStr "set-cookie" := by decide
theorem lsne_lm_sc : lowerStr "last-modified" ≠ lowerStr "set-cookie" := by decide

theorem HTTPResponse.step_getAll_ne (δ : Int) (h : ODictCaseless) (n k : String)
    (hne : lowerStr n ≠ lowerStr k) :
    (HTTPResponse.refreshHeaderStep δ h n).getAll k = h.getAll k := by
  unfold HTTPResponse.refreshHeaderStep
  by_cases hk : h.hasKey n = true
  · rw [if_pos hk]
    cases hv : h.get_first n with
    | none => rfl
    | some v =>
      cases ht : parsedate v with
      | none => simp only [ht]
      | some t =>
        simp only [ht]
        exact ODictCaseless.getAll_set_ne h n k _ hne
  · rw [if_neg hk]

theorem HTTPResponse.step_self_parsed (δ : Int) (h : ODictCaseless)
    (n v : String) (t : Int)
    (hv : h.get_first n = some v) (ht : parsedate v = some t) :
    HTTPResponse.refreshHeaderStep δ h n = h.set n [formatdate (t + δ)] := by
  unfold HTTPResponse.refreshHeaderStep
  rw [if_pos (ODictCaseless.hasKey_of_get_first h n v hv)]
  simp only [hv, ht]

theorem HTTPResponse.step_self_unparsed (δ : Int) (h : ODictCaseless)
    (n v : String)
    (hv : h.get_first n = some v) (ht : parsedate v = none) :
    HTTPResponse.refreshHeaderStep δ h n = h := by
  unfold HTTPResponse.refreshHeaderStep
  rw [if_pos (ODictCaseless.hasKey_of_get_first h n v hv)]
  simp only [hv, ht]

theorem HTTPResponse.cookiePhase_getAll_ne (δ : Int) (h : ODictCaseless)
    (k : String) (hne : lowerStr "set-cookie" ≠ lowerStr k) :
    (HTTPResponse.refreshCookiePhase δ h).getAll k = h.getAll k := by
  unfold HTTPResponse.refreshCookiePhase
  by_cases hc : ((h.getAll "set-cookie").map (HTTPResponse.refresh_cookie_str δ)).isEmpty = true
  · rw [if_pos hc]
  · rw [if_neg hc]
    exact ODictCaseless.getAll_set_ne h "set-cookie" k _ hne

theorem HTTPResponse.get_first_preserved (h h' : ODictCaseless) (k : String)
    (heq : h'.getAll k = h.getAll k) : h'.get_first k = h.get_first k := by
  rw [ODictCaseless.get_first_eq_head, ODictCaseless.get_first_eq_head, heq]

/-- Total substitution count over the values of a header entry list. -/
def hvalCount (pat repl : String) (l : List (String × String)) : Nat :=
  (l.map (fun p => (safe_subn pat repl p.2).2)).sum

theorem replace_count_eq (pat repl : String) (h : ODictCaseless) :
    (ODictCaseless.replace pat repl h).2 = hvalCount pat repl h.lst := by
  simp only [ODictCaseless.replace, hvalCount, List.map_map]
  rfl

theorem hvalCount_append (pat repl : String) (l1 l2 : List (String × String)) :
    hvalCount pat repl (l1 ++ l2) = hvalCount pat repl l1 + hvalCount pat repl l2 := by
  simp [hvalCount]

theorem hvalCount_split (pat repl : String) (P : String × String → Bool)
    (l : List (String × String)) :
    hvalCount pat repl (l.filter P) + hvalCount pat repl (l.filter (fun a => !P a))
      = hvalCount pat repl l := by
  induction l with
  | nil => rfl
  | cons a t ih =>
    cases hP : P a
    · have e1 : (a :: t).filter P = t.filter P := by simp [List.filter_cons, hP]
      have e2 : (a :: t).filter (fun x => !P x) = a :: t.filter (fun x => !P x) := by
        simp [List.filter_cons, hP]
      rw [e1, e2]
      simp only [hvalCount, List.map_cons, List.sum_cons] at *
      omega
    · have e1 : (a :: t).filter P = a :: t.filter P := by simp [List.filter_cons, hP]
      have e2 : (a :: t).filter (fun x => !P x) = t.filter (fun x => !P x) := by
        simp [List.filter_cons, hP]
      rw [e1, e2]
      simp only [hvalCount, List.map_cons, List.sum_cons] at *
      omega

theorem hvalCount_matching (pat repl : String) (h : ODictCaseless) (c : String)
    (hget : h.getAll "content-encoding" = [c]) :
    hvalCount pat repl (h.lst.filter
      (fun p => ODictCaseless.keyMatch p.1 "content-encoding"))
      = (safe_subn pat repl c).2 := by
  have hmap : (h.lst.filter
      (fun p => ODictCaseless.keyMatch p.1 "content-encoding")).map Prod.snd = [c] := hget
  have h1 : hvalCount pat repl (h.lst.filter
      (fun p => ODictCaseless.keyMatch p.1 "content-encoding"))
      = (((h.lst.filter (fun p => ODictCaseless.keyMatch p.1 "content-encoding")).map
          Prod.snd).map (fun v => (safe_subn pat repl v).2)).sum := by
    simp only [hvalCount, List.map_map]
    rfl
  rw [h1, hmap]
  simp

theorem hvalCount_roundtrip (pat repl : String) (h : ODictCaseless) (c : String)
    (hget : h.getAll "content-encoding" = [c]) :
    hvalCount pat repl ((h.del "content-encoding").lst ++ [("content-encoding", c)])
      = hvalCount pat repl h.lst := by
  rw [hvalCount_append]
  have hm := hvalCount_matching pat repl h c hget
  have hs := hvalCount_split pat repl
    (fun p => ODictCaseless.keyMatch p.1 "content-encoding") h.lst
  have hdel : (h.del "content-encoding").lst
      = h.lst.filter (fun p => !ODictCaseless.keyMatch p.1 "content-encoding") := rfl
  have hsingle : hvalCount pat repl [("content-encoding", c)]
      = (safe_subn pat repl c).2 := by
    simp [hvalCount]
  rw [hdel, hsingle]
  omega

theorem set_lst_single (h : ODictCaseless) (k v : String) :
    (h.set k [v]).lst = (h.del k).lst ++ [(k, v)] := rfl

theorem del_del (h : ODictCaseless) (k : String) : (h.del k).del k = h.del k := by
  simp only [ODictCaseless.del, List.filter_filter]
  congr 1
  apply List.filter_congr
  intro a _
  cases ha : ODictCaseless.keyMatch a.1 k <;> simp [ha]

theorem decoded.init_some (m : MessageS) (c : String)
    (h : decoded.init m = some c) :
    m.headers.get_first "content-encoding" = some c ∧ c ∈ ENCODINGS := by
  unfold decoded.init at h
  cases hce : m.headers.get_first "content-encoding" with
  | none =>
    simp only [hce] at h
    exact Option.noConfusion h
  | some c' =>
    simp only [hce] at h
    by_cases hm : c' ∈ ENCODINGS
    · rw [if_pos hm] at h
      obtain rfl := Option.some.inj h
      exact ⟨rfl, hm⟩
    · rw [if_neg hm] at h
      exact Option.noConfusion h

theorem Heap.write_ne (σ : Heap) (i j : Nat) (h : ODictCaseless) (hne : j ≠ i) :
    (σ.write i h).store j = σ.store j := by
  unfold Heap.write
  simp only []
  rw [if_neg hne]

theorem MessageMixin.copyH_spec (σ : Heap) (m : MessageRef)
    (_hlt : m.headersRef < σ.next) :
    (MessageMixin.copyH σ m).1.next = σ.next + 1 ∧
    (MessageMixin.copyH σ m).2.headersRef = σ.next ∧
    (MessageMixin.copyH σ m).2.bodyV = m.bodyV ∧
    (∀ j, j < σ.next → (MessageMixin.copyH σ m).1.store j = σ.store j) ∧
    (MessageMixin.copyH σ m).1.store σ.next = σ.store m.headersRef := by
  refine ⟨rfl, rfl, rfl, ?_, ?_⟩
  · intro j hj
    show (if j = σ.next then (σ.store m.headersRef).copy else σ.store j) = σ.store j
    rw [if_neg (by omega)]
  · show (if σ.next = σ.next then (σ.store m.headersRef).copy else σ.store σ.next)
      = σ.store m.headersRef
    rw [if_pos rfl]
    rfl

theorem string_eq_empty_of_length (s : String) (h : s.length = 0) : s = "" := by
  cases s with
  | mk data =>
    cases data with
    | nil => rfl
    | cons c t => simp [String.length] at h

/-! # Claim theorems -/

/-- C1: for every message wrapped by the scoped-decode helper `decoded`:
if on entry the `content-encoding` header names a supported encoding, the
helper remembers exactly that name, entry performs the in-place decode,
and on every exit path the helper re-encodes with the remembered name —
for any intermediate state, i.e. also when the decode on entry failed; if
no supported encoding was named (characterised exactly by the remembered
encoding being empty), the helper mutates nothing on entry or exit. -/
theorem claim_C1 (m : MessageS) :
    (∀ c, m.headers.get_first "content-encoding" = some c → c ∈ ENCODINGS →
      decoded.init m = some c ∧
      decoded.enter (decoded.init m) m = (MessageMixin.decode m).2 ∧
      (∀ m2 : MessageS, decoded.exit (decoded.init m) m2 = MessageMixin.encode c m2)) ∧
    (decoded.init m = none →
      decoded.enter (decoded.init m) m = m ∧
      (∀ m2 : MessageS, decoded.exit (decoded.init m) m2 = m2)) ∧
    (decoded.init m = none ↔
      ¬ ∃ c, m.headers.get_first "content-encoding" = some c ∧ c ∈ ENCODINGS) := by
  refine ⟨?_, ?_, ?_⟩
  · intro c hc hmem
    have hinit : decoded.init m = some c := by
      simp [decoded.init, hc, hmem]
    refine ⟨hinit, ?_, ?_⟩
    · rw [hinit]; rfl
    · intro m2; rw [hinit]; rfl
  · intro hinit
    exact ⟨by rw [hinit]; rfl, fun m2 => by rw [hinit]; rfl⟩
  · constructor
    · intro hinit hex
      obtain ⟨c, hc, hmem⟩ := hex
      simp [decoded.init, hc, hmem] at hinit
    · intro hnone
      unfold decoded.init
      cases hc : m.headers.get_first "content-encoding" with
      | none => rfl
      | some c =>
        have : c ∉ ENCODINGS := fun hmem => hnone ⟨c, hc, hmem⟩
        simp [this]

/-- C1 witness: on the sample gzip message the helper remembers `"gzip"`
and exit re-encodes any intermediate state with it. -/
theorem claim_C1_witness :
    decoded.init sampleMsg = some "gzip" ∧
    decoded.exit (decoded.init sampleMsg) sampleMsg
      = MessageMixin.encode "gzip" sampleMsg := by
  have h := (claim_C1 sampleMsg).1 "gzip" (by decide) (by decide)
  exact ⟨h.1, h.2.2 sampleMsg⟩

/-- C10: `refresh` on a response whose `timestamp_start` is null is an
error (its first step computes `now - timestamp_start`), not a no-op: it
produces no resulting response at all. -/
theorem claim_C10 (r : HTTPResponseS) (now : Int)
    (h : r.base.timestamp_start = none) :
    HTTPResponse.refresh now r = none ∧
    ∀ r' : HTTPResponseS, HTTPResponse.refresh now r ≠ some r' := by
  have hr : HTTPResponse.refresh now r = none := by
    unfold HTTPResponse.refresh
    rw [h]
  exact ⟨hr, fun r' hs => by rw [hr] at hs; exact Option.noConfusion hs⟩

/-- C10 witness: a never-transmitted concrete response makes `refresh`
fail. -/
theorem claim_C10_witness :
    HTTPResponse.refresh 3600
      ⟨200, "OK", ⟨(1, 1), ⟨[]⟩, .bytes "", none, none⟩, false, false⟩ = none :=
  (claim_C10 ⟨200, "OK", ⟨(1, 1), ⟨[]⟩, .bytes "", none, none⟩, false, false⟩
    3600 rfl).1

set_option maxHeartbeats 2000000 in
/-- C5: on a response with non-null `timestamp_start` `t0`, `refresh now`
rewrites each of the `date`, `expires` and `last-modified` headers whose
first value parses as an RFC-822-style date into a date string that parses
back to exactly the original instant plus `now - t0`, and leaves a header
of those three whose value is unparseable untouched. -/
theorem claim_C5 (r : HTTPResponseS) (now t0 : Int) (name : String)
    (hts : r.base.timestamp_start = some t0)
    (hname : name ∈ HTTPResponse.refresh_headers) :
    ∃ r', HTTPResponse.refresh now r = some r' ∧
      (∀ v t, r.base.headers.get_first name = some v → parsedate v = some t →
        r'.base.headers.getAll name = [formatdate (t + (now - t0))] ∧
        ∃ v', r'.base.headers.get_first name = some v' ∧
          parsedate v' = some (t + (now - t0))) ∧
      (∀ v, r.base.headers.get_first name = some v → parsedate v = none →
        r'.base.headers.getAll name = r.base.headers.getAll name) := by
  have href : HTTPResponse.refresh now r = some { r with base := { r.base with
      headers := HTTPResponse.refreshCookiePhase (now - t0)
        (HTTPResponse.refresh_headers.foldl
          (HTTPResponse.refreshHeaderStep (now - t0)) r.base.headers) } } := by
    unfold HTTPResponse.refresh
    rw [hts]
  have hname' : name = "date" ∨ name = "expires" ∨ name = "last-modified" := by
    simpa [HTTPResponse.refresh_headers] using hname
  rcases hname' with rfl | rfl | rfl
  · refine ⟨_, href, ?_, ?_⟩
    · intro v t hv ht
      have e1 := HTTPResponse.step_self_parsed (now - t0) r.base.headers "date" v t hv ht
      have efin : (HTTPResponse.refreshCookiePhase (now - t0)
          (HTTPResponse.refresh_headers.foldl
            (HTTPResponse.refreshHeaderStep (now - t0)) r.base.headers)).getAll "date"
          = [formatdate (t + (now - t0))] := by
        simp only [HTTPResponse.refresh_headers, List.foldl_cons, List.foldl_nil]
        rw [HTTPResponse.cookiePhase_getAll_ne _ _ _ lsne_sc_date,
          HTTPResponse.step_getAll_ne _ _ _ _ lsne_lm_date,
          HTTPResponse.step_getAll_ne _ _ _ _ lsne_exp_date,
          e1, ODictCaseless.getAll_set_self]
      refine ⟨efin, formatdate (t + (now - t0)), ?_, parsedate_formatdate _⟩
      rw [ODictCaseless.get_first_eq_head, efin]
      rfl
    · intro v hv ht
      have e1 := HTTPResponse.step_self_unparsed (now - t0) r.base.headers "date" v hv ht
      show (HTTPResponse.refreshCookiePhase (now - t0)
          (HTTPResponse.refresh_headers.foldl
            (HTTPResponse.refreshHeaderStep (now - t0)) r.base.headers)).getAll "date"
          = r.base.headers.getAll "date"
      simp only [HTTPResponse.refresh_headers, List.foldl_cons, List.foldl_nil]
      rw [HTTPResponse.cookiePhase_getAll_ne _ _ _ lsne_sc_date,
        HTTPResponse.step_getAll_ne _ _ _ _ lsne_lm_date,
        HTTPResponse.step_getAll_ne _ _ _ _ lsne_exp_date,
        e1]
  · refine ⟨_, href, ?_, ?_⟩
    · intro v t hv ht
      have hpres : (HTTPResponse.refreshHeaderStep (now - t0) r.base.headers "date").getAll
          "expires" = r.base.headers.getAll "expires" :=
        HTTPResponse.step_getAll_ne _ _ _ _ lsne_date_exp
      have hv1 : (HTTPResponse.refreshHeaderStep (now - t0) r.base.headers "date").get_first
          "expires" = some v := by
        rw [HTTPResponse.get_first_preserved _ _ _ hpres]
        exact hv
      have e2 := HTTPResponse.step_self_parsed (now - t0)
        (HTTPResponse.refreshHeaderStep (now - t0) r.base.headers "date")
        "expires" v t hv1 ht
      have efin : (HTTPResponse.refreshCookiePhase (now - t0)
          (HTTPResponse.refresh_headers.foldl
            (HTTPResponse.refreshHeaderStep (now - t0)) r.base.headers)).getAll "expires"
          = [formatdate (t + (now - t0))] := by
        simp only [HTTPResponse.refresh_headers, List.foldl_cons, List.foldl_nil]
        rw [HTTPResponse.cookiePhase_getAll_ne _ _ _ lsne_sc_exp,
          HTTPResponse.step_getAll_ne _ _ _ _ lsne_lm_exp,
          e2, ODictCaseless.getAll_set_self]
      refine ⟨efin, formatdate (t + (now - t0)), ?_, parsedate_formatdate _⟩
      rw [ODictCaseless.get_first_eq_head, efin]
      rfl
    · intro v hv ht
      have hpres : (HTTPResponse.refreshHeaderStep (now - t0) r.base.headers "date").getAll
          "expires" = r.base.headers.getAll "expires" :=
        HTTPResponse.step_getAll_ne _ _ _ _ lsne_date_exp
      have hv1 : (HTTPResponse.refreshHeaderStep (now - t0) r.base.headers "date").get_first
          "expires" = some v := by
        rw [HTTPResponse.get_first_preserved _ _ _ hpres]
        exact hv
      have e2 := HTTPResponse.step_self_unparsed (now - t0)
        (HTTPResponse.refreshHeaderStep (now - t0) r.base.headers "date")
        "expires" v hv1 ht
      show (HTTPResponse.refreshCookiePhase (now - t0)
          (HTTPResponse.refresh_headers.foldl
            (HTTPResponse.refreshHeaderStep (now - t0)) r.base.headers)).getAll "expires"
          = r.base.headers.getAll "expires"
      simp only [HTTPResponse.refresh_headers, List.foldl_cons, List.foldl_nil]
      rw [HTTPResponse.cookiePhase_getAll_ne _ _ _ lsne_sc_exp,
        HTTPResponse.step_getAll_ne _ _ _ _ lsne_lm_exp,
        e2, hpres]
  · refine ⟨_, href, ?_, ?_⟩
    · intro v t hv ht
      have hp1 : (HTTPResponse.refreshHeaderStep (now - t0) r.base.headers "date").getAll
          "last-modified" = r.base.headers.getAll "last-modified" :=
        HTTPResponse.step_getAll_ne _ _ _ _ lsne_date_lm
      have hp2 : (HTTPResponse.refreshHeaderStep (now - t0)
          (HTTPResponse.refreshHeaderStep (now - t0) r.base.headers "date")
          "expires").getAll "last-modified"
          = r.base.headers.getAll "last-modified" := by
        rw [HTTPResponse.step_getAll_ne _ _ _ _ lsne_exp_lm, hp1]
      have hv2 : (HTTPResponse.refreshHeaderStep (now - t0)
          (HTTPResponse.refreshHeaderStep (now - t0) r.base.headers "date")
          "expires").get_first "last-modified" = some v := by
        rw [HTTPResponse.get_first_preserved _ _ _ hp2]
        exact hv
      have e3 := HTTPResponse.step_self_parsed (now - t0)
        (HTTPResponse.refreshHeaderStep (now - t0)
          (HTTPResponse.refreshHeaderStep (now - t0) r.base.headers "date") "expires")
        "last-modified" v t hv2 ht
      have efin : (HTTPResponse.refreshCookiePhase (now - t0)
          (HTTPResponse.refresh_headers.foldl
            (HTTPResponse.refreshHeaderStep (now - t0)) r.base.headers)).getAll
              "last-modified"
          = [formatdate (t + (now - t0))] := by
        simp only [HTTPResponse.refresh_headers, List.foldl_cons, List.foldl_nil]
        rw [HTTPResponse.cookiePhase_getAll_ne _ _ _ lsne_sc_lm,
          e3, ODictCaseless.getAll_set_self]
      refine ⟨efin, formatdate (t + (now - t0)), ?_, parsedate_formatdate _⟩
      rw [ODictCaseless.get_first_eq_head, efin]
      rfl
    · intro v hv ht
      have hp1 : (HTTPResponse.refreshHeaderStep (now - t0) r.base.headers "date").getAll
          "last-modified" = r.base.headers.getAll "last-modified" :=
        HTTPResponse.step_getAll_ne _ _ _ _ lsne_date_lm
      have hp2 : (HTTPResponse.refreshHeaderStep (now - t0)
          (HTTPResponse.refreshHeaderStep (now - t0) r.base.headers "date")
          "expires").getAll "last-modified"
          = r.base.headers.getAll "last-modified" := by
        rw [HTTPResponse.step_getAll_ne _ _ _ _ lsne_exp_lm, hp1]
      have hv2 : (HTTPResponse.refreshHeaderStep (now - t0)
          (HTTPResponse.refreshHeaderStep (now - t0) r.base.headers "date")
          "expires").get_first "last-modified" = some v := by
        rw [HTTPResponse.get_first_preserved _ _ _ hp2]
        exact hv
      have e3 := HTTPResponse.step_self_unparsed (now - t0)
        (HTTPResponse.refreshHeaderStep (now - t0)
          (HTTPResponse.refreshHeaderStep (now - t0) r.base.headers "date") "expires")
        "last-modified" v hv2 ht
      show (HTTPResponse.refreshCookiePhase (now - t0)
          (HTTPResponse.refresh_headers.foldl
            (HTTPResponse.refreshHeaderStep (now - t0)) r.base.headers)).getAll
              "last-modified"
          = r.base.headers.getAll "last-modified"
      simp only [HTTPResponse.refresh_headers, List.foldl_cons, List.foldl_nil]
      rw [HTTPResponse.cookiePhase_getAll_ne _ _ _ lsne_sc_lm, e3, hp2]

/-- C5 witness: the spec's scenario shape — `timestamp_start = 0`, a
`date` header equal to instant `0`, `now = 3600`: the rewritten header
parses back to exactly `3600`. -/
theorem claim_C5_witness :
    ∃ r', HTTPResponse.refresh 3600 sampleResp = some r' ∧
      r'.base.headers.getAll "date" = [formatdate 3600] ∧
      ∃ v', r'.base.headers.get_first "date" = some v' ∧
        parsedate v' = some 3600 := by
  obtain ⟨r', h1, h2, _⟩ := claim_C5 sampleResp 3600 0 "date" rfl (by decide)
  obtain ⟨hall, v', hv', hp⟩ := h2 (formatdate 0) 0 (by decide) (parsedate_formatdate 0)
  exact ⟨r', h1, by simpa using hall, v', hv', by simpa using hp⟩

/-- C6: `refresh` processes each `set-cookie` value independently: a
cookie attribute `expires` whose date parses is shifted by `delta` and
rewritten; an unparseable `expires` attribute is dropped; the cookie's
name/value pair and all non-expires attributes are preserved; and a
response with no `set-cookie` headers gains none from `refresh`. -/
theorem claim_C6 :
    (∀ (delta : Int) (c : CookieRec),
      (HTTPResponse.refresh_cookie delta c).name = c.name ∧
      (HTTPResponse.refresh_cookie delta c).value = c.value ∧
      (∀ k v, (k, v) ∈ c.attrs → k ≠ "expires" →
        (k, v) ∈ (HTTPResponse.refresh_cookie delta c).attrs) ∧
      (∀ v t, ("expires", v) ∈ c.attrs → parsedate v = some t →
        ("expires", formatdate (t + delta)) ∈ (HTTPResponse.refresh_cookie delta c).attrs) ∧
      (∀ v, parsedate v = none →
        ("expires", v) ∉ (HTTPResponse.refresh_cookie delta c).attrs)) ∧
    (∀ (r : HTTPResponseS) (now t0 : Int),
      r.base.timestamp_start = some t0 →
      r.base.headers.getAll "set-cookie" = [] →
      ∃ r', HTTPResponse.refresh now r = some r' ∧
        r'.base.headers.getAll "set-cookie" = []) := by
  constructor
  · intro delta c
    refine ⟨rfl, rfl, ?_, ?_, ?_⟩
    · intro k v hmem hk
      unfold HTTPResponse.refresh_cookie
      simp only [List.mem_filterMap]
      exact ⟨(k, v), hmem, by simp [hk]⟩
    · intro v t hmem ht
      unfold HTTPResponse.refresh_cookie
      simp only [List.mem_filterMap]
      exact ⟨("expires", v), hmem, by simp [ht]⟩
    · intro v hv hmem
      unfold HTTPResponse.refresh_cookie at hmem
      simp only [List.mem_filterMap] at hmem
      obtain ⟨⟨k0, v0⟩, hm0, hf0⟩ := hmem
      by_cases hk0 : k0 = "expires"
      · subst hk0
        cases ht0 : parsedate v0 with
        | none => simp [ht0] at hf0
        | some t1 =>
          simp [ht0] at hf0
          rw [← hf0, parsedate_formatdate] at hv
          exact Option.noConfusion hv
      · simp [hk0] at hf0
  · intro r now t0 hts hsc
    have href : HTTPResponse.refresh now r = some { r with base := { r.base with
        headers := HTTPResponse.refreshCookiePhase (now - t0)
          (HTTPResponse.refresh_headers.foldl
            (HTTPResponse.refreshHeaderStep (now - t0)) r.base.headers) } } := by
      unfold HTTPResponse.refresh
      rw [hts]
    refine ⟨_, href, ?_⟩
    show (HTTPResponse.refreshCookiePhase (now - t0)
        (HTTPResponse.refresh_headers.foldl
          (HTTPResponse.refreshHeaderStep (now - t0)) r.base.headers)).getAll "set-cookie"
        = []
    have hfold : (HTTPResponse.refresh_headers.foldl
        (HTTPResponse.refreshHeaderStep (now - t0)) r.base.headers).getAll "set-cookie"
        = [] := by
      simp only [HTTPResponse.refresh_headers, List.foldl_cons, List.foldl_nil]
      rw [HTTPResponse.step_getAll_ne _ _ _ _ lsne_lm_sc,
        HTTPResponse.step_getAll_ne _ _ _ _ lsne_exp_sc,
        HTTPResponse.step_getAll_ne _ _ _ _ lsne_date_sc,
        hsc]
    unfold HTTPResponse.refreshCookiePhase
    rw [hfold]
    simpa using hfold

/-- C6 witness: a parseable `expires` attribute is shifted while the
non-expires attribute survives; an unparseable `expires` is dropped; a
response without `set-cookie` headers gains none. -/
theorem claim_C6_witness :
    ("expires", formatdate 7) ∈
      (HTTPResponse.refresh_cookie 2
        ⟨"sid", "abc", [("expires", formatdate 5), ("path", "/")]⟩).attrs ∧
    ("path", "/") ∈
      (HTTPResponse.refresh_cookie 2
        ⟨"sid", "abc", [("expires", formatdate 5), ("path", "/")]⟩).attrs ∧
    ("expires", "garbage") ∉
      (HTTPResponse.refresh_cookie 2 ⟨"sid", "abc", [("expires", "garbage")]⟩).attrs ∧
    ∃ r', HTTPResponse.refresh 3600 sampleResp = some r' ∧
      r'.base.headers.getAll "set-cookie" = [] := by
  refine ⟨?_, ?_, ?_, ?_⟩
  · exact (claim_C6.1 2 ⟨"sid", "abc", [("expires", formatdate 5), ("path", "/")]⟩).2.2.2.1
      (formatdate 5) 5 (by decide) (parsedate_formatdate 5)
  · exact (claim_C6.1 2 ⟨"sid", "abc", [("expires", formatdate 5), ("path", "/")]⟩).2.2.1
      "path" "/" (by decide) (by decide)
  · exact (claim_C6.1 2 ⟨"sid", "abc", [("expires", "garbage")]⟩).2.2.2.2
      "garbage" (by decide)
  · exact claim_C6.2 sampleResp 3600 0 rfl (by decide)

/-- C7: `HTTPRequest.replace` returns the sum of three counts — header
values, decoded body, path — with the body count measured on the decoded
content (`get_decoded_content`), so the decode/encode round trip neither
under- nor over-counts.  Hypotheses: the path is present and the body is a
byte sequence (on the `CONTENT_MISSING` sentinel or a null path the call
raises instead of returning), and when a supported encoding is named it is
the single `content-encoding` entry and the body decodes (or is empty). -/
theorem claim_C7 (r : HTTPRequestS) (pat repl p s : String)
    (hp : r.path = some p) (hb : r.base.body = .bytes s)
    (hwf : ∀ c, decoded.init r.base = some c →
      (s = "" ∨ encDecode c s ≠ none) ∧
      r.base.headers.getAll "content-encoding" = [c]) :
    ∃ dc n r', MessageMixin.get_decoded_content r.base = some (.bytes dc) ∧
      HTTPRequest.replace pat repl r = some (n, r') ∧
      n = (ODictCaseless.replace pat repl r.base.headers).2
          + (safe_subn pat repl dc).2 + (safe_subn pat repl p).2 := by
  cases hinit : decoded.init r.base with
  | none =>
    have hmr : MessageMixin.replace pat repl r.base =
        some ((safe_subn pat repl s).2
            + (ODictCaseless.replace pat repl r.base.headers).2,
          { r.base with body := .bytes (safe_subn pat repl s).1,
                        headers := (ODictCaseless.replace pat repl r.base.headers).1 }) := by
      simp only [MessageMixin.replace, hinit, decoded.enter, hb, decoded.exit]
    have hgdc : MessageMixin.get_decoded_content r.base = some (.bytes s) := by
      unfold decoded.init at hinit
      unfold MessageMixin.get_decoded_content
      cases hce : r.base.headers.get_first "content-encoding" with
      | none => simp [hce, hb]
      | some c' =>
        simp only [hce] at hinit
        by_cases hm : c' ∈ ENCODINGS
        · rw [if_pos hm] at hinit
          exact Option.noConfusion hinit
        · simp [hce, hb, hm]
    refine ⟨s,
      (safe_subn pat repl s).2 + (ODictCaseless.replace pat repl r.base.headers).2
        + (safe_subn pat repl p).2,
      { r with
        base := { r.base with
                  body := .bytes (safe_subn pat repl s).1
                  headers := (ODictCaseless.replace pat repl r.base.headers).1 }
        path := some (safe_subn pat repl p).1 },
      hgdc, ?_, ?_⟩
    · simp only [HTTPRequest.replace, hmr, hp]
    · omega
  | some c =>
    obtain ⟨hdc, hone⟩ := hwf c hinit
    obtain ⟨hce, hmem⟩ := decoded.init_some r.base c hinit
    by_cases hs0 : s = ""
    · subst hs0
      have hdec : MessageMixin.decode r.base = (false, r.base) := by
        simp [MessageMixin.decode, hce, hb]
      have hmr : MessageMixin.replace pat repl r.base =
          some ((safe_subn pat repl "").2
              + (ODictCaseless.replace pat repl
                  (r.base.headers.set "content-encoding" [c])).2,
            { r.base with
                body := .bytes (encEncode c (safe_subn pat repl "").1),
                headers := (ODictCaseless.replace pat repl
                  (r.base.headers.set "content-encoding" [c])).1 }) := by
        simp only [MessageMixin.replace, hinit, decoded.enter, hdec, hb, decoded.exit,
          MessageMixin.encode]
      have hgdc : MessageMixin.get_decoded_content r.base = some (.bytes "") := by
        simp [MessageMixin.get_decoded_content, hce, hb]
      have hcnt : (ODictCaseless.replace pat repl
          (r.base.headers.set "content-encoding" [c])).2
          = (ODictCaseless.replace pat repl r.base.headers).2 := by
        rw [replace_count_eq, replace_count_eq, set_lst_single]
        exact hvalCount_roundtrip pat repl r.base.headers c hone
      refine ⟨"",
        (safe_subn pat repl "").2 + (ODictCaseless.replace pat repl
            (r.base.headers.set "content-encoding" [c])).2
          + (safe_subn pat repl p).2,
        { r with
          base := { r.base with
                    body := .bytes (encEncode c (safe_subn pat repl "").1)
                    headers := (ODictCaseless.replace pat repl
                      (r.base.headers.set "content-encoding" [c])).1 }
          path := some (safe_subn pat repl p).1 },
        hgdc, ?_, ?_⟩
      · simp only [HTTPRequest.replace, hmr, hp]
      · rw [hcnt]
        omega
    · obtain ⟨d, hd⟩ : ∃ d, encDecode c s = some d := by
        rcases hdc with h | h
        · exact absurd h hs0
        · cases hdd : encDecode c s with
          | none => exact absurd hdd h
          | some d => exact ⟨d, rfl⟩
      have hdec : MessageMixin.decode r.base = (true,
          { r.base with body := .bytes d,
                        headers := r.base.headers.del "content-encoding" }) := by
        simp [MessageMixin.decode, hce, hb, hs0, hmem, hd]
      have hmr : MessageMixin.replace pat repl r.base =
          some ((safe_subn pat repl d).2
              + (ODictCaseless.replace pat repl
                  ((r.base.headers.del "content-encoding").set
                    "content-encoding" [c])).2,
            { r.base with
                body := .bytes (encEncode c (safe_subn pat repl d).1),
                headers := (ODictCaseless.replace pat repl
                  ((r.base.headers.del "content-encoding").set
                    "content-encoding" [c])).1 }) := by
        simp only [MessageMixin.replace, hinit, decoded.enter, hdec, decoded.exit,
          MessageMixin.encode]
      have hgdc : MessageMixin.get_decoded_content r.base = some (.bytes d) := by
        simp [MessageMixin.get_decoded_content, hce, hb, hs0, hmem, hd]
      have hcnt : (ODictCaseless.replace pat repl
          ((r.base.headers.del "content-encoding").set "content-encoding" [c])).2
          = (ODictCaseless.replace pat repl r.base.headers).2 := by
        rw [replace_count_eq, replace_count_eq, set_lst_single, del_del]
        exact hvalCount_roundtrip pat repl r.base.headers c hone
      refine ⟨d,
        (safe_subn pat repl d).2 + (ODictCaseless.replace pat repl
            ((r.base.headers.del "content-encoding").set "content-encoding" [c])).2
          + (safe_subn pat repl p).2,
        { r with
          base := { r.base with
                    body := .bytes (encEncode c (safe_subn pat repl d).1)
                    headers := (ODictCaseless.replace pat repl
                      ((r.base.headers.del "content-encoding").set
                        "content-encoding" [c])).1 }
          path := some (safe_subn pat repl p).1 },
        hgdc, ?_, ?_⟩
      · simp only [HTTPRequest.replace, hmr, hp]
      · rw [hcnt]
        omega

/-- C7 witness: the sample request — gzip body `"hello foo"`, header value
`"oo"` on `Host`-adjacent entries, path `"/foo/bar"` — under the
substitution `"oo" ↦ "X"`: 1 body occurrence, 0 header occurrences in
`("Content-Encoding","gzip")`/`("Host","example.com")`, 2 path
occurrences. -/
theorem claim_C7_witness :
    ∃ dc n r', MessageMixin.get_decoded_content sampleReq.base = some (.bytes dc) ∧
      HTTPRequest.replace "oo" "X" sampleReq = some (n, r') ∧
      n = (ODictCaseless.replace "oo" "X" sampleReq.base.headers).2
          + (safe_subn "oo" "X" dc).2 + (safe_subn "oo" "X" "/foo/bar").2 := by
  exact claim_C7 sampleReq "oo" "X" "/foo/bar" (encEncode "gzip" "hello foo")
    rfl rfl (fun c hc => by
      obtain rfl : c = "gzip" := by
        have h1 := (decoded.init_some sampleReq.base c hc).1
        have h2 : sampleReq.base.headers.get_first "content-encoding" = some "gzip" := by
          decide
        rw [h1] at h2
        exact Option.some.inj h2
      exact ⟨Or.inr (by decide), by decide⟩)

/-- C9: `HTTPFlow.copy` shares the connection references (and the error
reference) with the original, while request and response, when present,
become structurally independent copies: contents equal at copy time, a
fresh headers object distinct from the original's, so that writing to the
copy's headers leaves the original's headers untouched. -/
theorem claim_C9 (σ : Heap) (f : FlowH) (hwf : f.wfB σ = true) :
    (HTTPFlow.copy σ f).2.client_conn = f.client_conn ∧
    (HTTPFlow.copy σ f).2.server_conn = f.server_conn ∧
    (HTTPFlow.copy σ f).2.error = f.error ∧
    (∀ mr, f.request = some mr → ∃ mr',
      (HTTPFlow.copy σ f).2.request = some mr' ∧
      mr'.bodyV = mr.bodyV ∧
      (HTTPFlow.copy σ f).1.store mr'.headersRef = σ.store mr.headersRef ∧
      (HTTPFlow.copy σ f).1.store mr.headersRef = σ.store mr.headersRef ∧
      mr'.headersRef ≠ mr.headersRef ∧
      (∀ hnew, ((HTTPFlow.copy σ f).1.write mr'.headersRef hnew).store mr.headersRef
        = σ.store mr.headersRef)) ∧
    (∀ mr, f.response = some mr → ∃ mr',
      (HTTPFlow.copy σ f).2.response = some mr' ∧
      mr'.bodyV = mr.bodyV ∧
      (HTTPFlow.copy σ f).1.store mr'.headersRef = σ.store mr.headersRef ∧
      (HTTPFlow.copy σ f).1.store mr.headersRef = σ.store mr.headersRef ∧
      mr'.headersRef ≠ mr.headersRef ∧
      (∀ hnew, ((HTTPFlow.copy σ f).1.write mr'.headersRef hnew).store mr.headersRef
        = σ.store mr.headersRef)) := by
  cases hreq : f.request with
  | none =>
    cases hresp : f.response with
    | none =>
      have hcopy : HTTPFlow.copy σ f = (σ, { f with request := none, response := none }) := by
        simp only [HTTPFlow.copy, hreq, hresp]
      rw [hcopy]
      exact ⟨rfl, rfl, rfl,
        fun mr h => Option.noConfusion h,
        fun mr h => Option.noConfusion h⟩
    | some rs =>
      have hr : rs.headersRef < σ.next := by
        simp only [FlowH.wfB, hreq, hresp, Bool.and_eq_true, decide_eq_true_eq] at hwf
        exact hwf.2
      obtain ⟨e2n, e2r, e2b, e2pres, e2new⟩ := MessageMixin.copyH_spec σ rs hr
      have hcopy : HTTPFlow.copy σ f =
          ((MessageMixin.copyH σ rs).1,
           { f with request := none, response := some (MessageMixin.copyH σ rs).2 }) := by
        simp only [HTTPFlow.copy, hreq, hresp]
      rw [hcopy]
      refine ⟨rfl, rfl, rfl, fun mr h => Option.noConfusion h, ?_⟩
      intro mr h
      obtain rfl := Option.some.inj h
      refine ⟨(MessageMixin.copyH σ rs).2, rfl, e2b, ?_, ?_, ?_, ?_⟩
      · rw [e2r, e2new]
      · exact e2pres rs.headersRef hr
      · rw [e2r]; omega
      · intro hnew
        rw [Heap.write_ne _ _ _ _ (by rw [e2r]; omega)]
        exact e2pres rs.headersRef hr
  | some rq =>
    cases hresp : f.response with
    | none =>
      have hq : rq.headersRef < σ.next := by
        simp only [FlowH.wfB, hreq, hresp, Bool.and_eq_true, decide_eq_true_eq] at hwf
        exact hwf.1
      obtain ⟨e1n, e1r, e1b, e1pres, e1new⟩ := MessageMixin.copyH_spec σ rq hq
      have hcopy : HTTPFlow.copy σ f =
          ((MessageMixin.copyH σ rq).1,
           { f with request := some (MessageMixin.copyH σ rq).2, response := none }) := by
        simp only [HTTPFlow.copy, hreq, hresp]
      rw [hcopy]
      refine ⟨rfl, rfl, rfl, ?_, fun mr h => Option.noConfusion h⟩
      intro mr h
      obtain rfl := Option.some.inj h
      refine ⟨(MessageMixin.copyH σ rq).2, rfl, e1b, ?_, ?_, ?_, ?_⟩
      · rw [e1r, e1new]
      · exact e1pres rq.headersRef hq
      · rw [e1r]; omega
      · intro hnew
        rw [Heap.write_ne _ _ _ _ (by rw [e1r]; omega)]
        exact e1pres rq.headersRef hq
    | some rs =>
      have hq : rq.headersRef < σ.next := by
        simp only [FlowH.wfB, hreq, hresp, Bool.and_eq_true, decide_eq_true_eq] at hwf
        exact hwf.1
      have hr : rs.headersRef < σ.next := by
        simp only [FlowH.wfB, hreq, hresp, Bool.and_eq_true, decide_eq_true_eq] at hwf
        exact hwf.2
      obtain ⟨e1n, e1r, e1b, e1pres, e1new⟩ := MessageMixin.copyH_spec σ rq hq
      have hr1 : rs.headersRef < (MessageMixin.copyH σ rq).1.next := by
        rw [e1n]; omega
      obtain ⟨e2n, e2r, e2b, e2pres, e2new⟩ :=
        MessageMixin.copyH_spec (MessageMixin.copyH σ rq).1 rs hr1
      have hcopy : HTTPFlow.copy σ f =
          ((MessageMixin.copyH (MessageMixin.copyH σ rq).1 rs).1,
           { f with
               request := some (MessageMixin.copyH σ rq).2,
               response := some (MessageMixin.copyH (MessageMixin.copyH σ rq).1 rs).2 }) := by
        simp only [HTTPFlow.copy, hreq, hresp]
      rw [hcopy]
      refine ⟨rfl, rfl, rfl, ?_, ?_⟩
      · intro mr h
        obtain rfl := Option.some.inj h
        refine ⟨(MessageMixin.copyH σ rq).2, rfl, e1b, ?_, ?_, ?_, ?_⟩
        · rw [e1r]
          have hst : (MessageMixin.copyH (MessageMixin.copyH σ rq).1 rs).1.store σ.next
              = (MessageMixin.copyH σ rq).1.store σ.next :=
            e2pres σ.next (by rw [e1n]; omega)
          rw [hst, e1new]
        · have hst : (MessageMixin.copyH (MessageMixin.copyH σ rq).1 rs).1.store rq.headersRef
              = (MessageMixin.copyH σ rq).1.store rq.headersRef :=
            e2pres rq.headersRef (by rw [e1n]; omega)
          rw [hst]
          exact e1pres rq.headersRef hq
        · rw [e1r]; omega
        · intro hnew
          rw [Heap.write_ne _ _ _ _ (by rw [e1r]; omega)]
          have hst : (MessageMixin.copyH (MessageMixin.copyH σ rq).1 rs).1.store rq.headersRef
              = (MessageMixin.copyH σ rq).1.store rq.headersRef :=
            e2pres rq.headersRef (by rw [e1n]; omega)
          rw [hst]
          exact e1pres rq.headersRef hq
      · intro mr h
        obtain rfl := Option.some.inj h
        refine ⟨(MessageMixin.copyH (MessageMixin.copyH σ rq).1 rs).2, rfl, e2b,
          ?_, ?_, ?_, ?_⟩
        · rw [e2r, e2new]
          exact e1pres rs.headersRef hr
        · have hst : (MessageMixin.copyH (MessageMixin.copyH σ rq).1 rs).1.store rs.headersRef
              = (MessageMixin.copyH σ rq).1.store rs.headersRef :=
            e2pres rs.headersRef hr1
          rw [hst]
          exact e1pres rs.headersRef hr
        · rw [e2r, e1n]; omega
        · intro hnew
          rw [Heap.write_ne _ _ _ _ (by rw [e2r, e1n]; omega)]
          have hst : (MessageMixin.copyH (MessageMixin.copyH σ rq).1 rs).1.store rs.headersRef
              = (MessageMixin.copyH σ rq).1.store rs.headersRef :=
            e2pres rs.headersRef hr1
          rw [hst]
          exact e1pres rs.headersRef hr

/-- C9 witness: copying the sample flow shares connections 3 and 4 and
gives the copy's request a fresh headers object whose mutation leaves the
original's headers at reference 0 untouched. -/
theorem claim_C9_witness :
    (HTTPFlow.copy sampleHeap sampleFlow).2.client_conn = sampleFlow.client_conn ∧
    (HTTPFlow.copy sampleHeap sampleFlow).2.server_conn = sampleFlow.server_conn ∧
    ∃ mr', (HTTPFlow.copy sampleHeap sampleFlow).2.request = some mr' ∧
      mr'.headersRef ≠ 0 ∧
      ∀ hnew, ((HTTPFlow.copy sampleHeap sampleFlow).1.write mr'.headersRef hnew).store 0
        = sampleHeap.store 0 := by
  have h := claim_C9 sampleHeap sampleFlow (by decide)
  obtain ⟨mr', h1, _, _, _, h5, h6⟩ := h.2.2.2.1 ⟨0, .bytes "x"⟩ rfl
  exact ⟨h.1, h.2.1, mr', h1, h5, h6⟩

/-- C8 counterexample: the claim says a match against an empty filter
argument returns true unconditionally; but `match` routes every string —
the empty string included — through the filter engine's compile, which
rejects it, so the call raises `ValueError` instead of returning true. -/
theorem claim_C8_counterexample :
    HTTPFlow.matchf flow0 (.text "") = .valueError ∧
    HTTPFlow.matchf flow0 (.text "") ≠ .ok true := by
  constructor
  · rfl
  · intro h
    exact MatchRes.noConfusion h

/-- C8 (amended): `match` with a null filter returns true unconditionally;
a textual expression — the empty string included — is compiled: a compile
failure raises `ValueError` (distinct from a false match result), and a
successfully compiled expression, like a directly supplied compiled
predicate, yields the predicate's boolean result on the flow. -/
theorem claim_C8_amended (fl : FlowH) :
    HTTPFlow.matchf fl .nofilter = .ok true ∧
    (∀ s, filtParse s = none → HTTPFlow.matchf fl (.text s) = .valueError) ∧
    (∀ s pfn, filtParse s = some pfn → HTTPFlow.matchf fl (.text s) = .ok (pfn fl)) ∧
    (∀ pfn : FlowH → Bool, HTTPFlow.matchf fl (.pred pfn) = .ok (pfn fl)) := by
  refine ⟨rfl, ?_, ?_, fun _ => rfl⟩
  · intro s hs
    simp [HTTPFlow.matchf, hs]
  · intro s pfn hs
    simp [HTTPFlow.matchf, hs]

/-- C2: the short-form state snapshot of a message is the full-form
snapshot with the `body` attribute replaced by a `contentLength` field,
which is the null sentinel exactly when the body is `CONTENT_MISSING`,
`0` exactly when the body is a captured empty byte sequence, and the byte
length of the body whenever the body is a captured byte sequence. -/
theorem claim_C2 (m : MessageS) :
    ∃ cl : SVal,
      MessageMixin.get_state true m =
        ((MessageMixin.get_state false m).filter (fun p => p.1 ≠ "body"))
          ++ [("contentLength", cl)] ∧
      (cl = .vnull ↔ m.body = .missing) ∧
      (cl = .vint 0 ↔ m.body = .bytes "") ∧
      (∀ s : String, m.body = .bytes s → cl = .vint s.length) := by
  cases hb : m.body with
  | missing =>
    refine ⟨.vnull, ?_, by simp [hb], by simp [hb], ?_⟩
    · simp [MessageMixin.get_state, hb]
    · intro s hs
      exact absurd hs (by simp)
  | bytes s =>
    by_cases hs : s = ""
    · subst hs
      refine ⟨.vint 0, ?_, by simp [hb], by simp [hb], ?_⟩
      · simp [MessageMixin.get_state, hb]
      · intro s' hs'
        obtain rfl : ("" : String) = s' := BodyVal.bytes.inj hs'
        rfl
    · refine ⟨.vint s.length, ?_, by simp [hb], ?_, ?_⟩
      · simp [MessageMixin.get_state, hb, hs]
      · constructor
        · intro hz
          have hlen : (s.length : Int) = 0 := SVal.vint.inj hz
          have hl0 : s.length = 0 := by exact_mod_cast hlen
          exact absurd (string_eq_empty_of_length s hl0) hs
        · intro hz
          exact absurd (BodyVal.bytes.inj hz) hs
      · intro s' hs'
        obtain rfl : s = s' := BodyVal.bytes.inj hs'
        rfl

/-- C2 witness: the three body states on concrete messages. -/
theorem claim_C2_witness :
    ∃ cl : SVal,
      MessageMixin.get_state true ⟨(1, 1), ⟨[]⟩, .bytes "0123456789", some 3, none⟩ =
        ((MessageMixin.get_state false ⟨(1, 1), ⟨[]⟩, .bytes "0123456789", some 3, none⟩).filter
            (fun p => p.1 ≠ "body")) ++ [("contentLength", cl)] ∧
      cl = .vint 10 := by
  obtain ⟨cl, h1, _, _, h4⟩ := claim_C2 ⟨(1, 1), ⟨[]⟩, .bytes "0123456789", some 3, none⟩
  exact ⟨cl, h1, h4 "0123456789" rfl⟩

/-- C3: on a message whose `content-encoding` first value is `gzip` and
whose body decodes successfully, for any pattern/replacement pair that
does not substitute inside the string `"gzip"`, `replace` leaves the
`content-encoding` header value `gzip`, and a subsequent `decode()`
succeeds and yields the plaintext with the substitution applied. -/
theorem claim_C3 (m : MessageS) (pat repl s d : String)
    (hce : m.headers.get_first "content-encoding" = some "gzip")
    (hb : m.body = .bytes s)
    (hd : encDecode "gzip" s = some d)
    (hpat : safe_subn pat repl "gzip" = ("gzip", 0)) :
    ∃ n m', MessageMixin.replace pat repl m = some (n, m') ∧
      m'.headers.get_first "content-encoding" = some "gzip" ∧
      (MessageMixin.decode m').1 = true ∧
      (MessageMixin.decode m').2.body = .bytes (safe_subn pat repl d).1 := by
  have hs : s ≠ "" := encDecode_gzip_ne_empty s d hd
  have hinit : decoded.init m = some "gzip" := by
    simp [decoded.init, hce, gzip_mem_ENCODINGS]
  have hdec : MessageMixin.decode m =
      (true, { m with body := .bytes d,
                      headers := m.headers.del "content-encoding" }) := by
    simp [MessageMixin.decode, hce, hb, hs, hd, gzip_mem_ENCODINGS]
  have heq : MessageMixin.replace pat repl m =
      some ((safe_subn pat repl d).2 + (ODictCaseless.replace pat repl
          ((m.headers.del "content-encoding").set "content-encoding" ["gzip"])).2,
        { m with
            body := .bytes (encEncode "gzip" (safe_subn pat repl d).1),
            headers := (ODictCaseless.replace pat repl
              ((m.headers.del "content-encoding").set "content-encoding" ["gzip"])).1 }) := by
    simp only [MessageMixin.replace, hinit, decoded.enter, hdec, decoded.exit,
      MessageMixin.encode]
  have hget : (ODictCaseless.replace pat repl
      ((m.headers.del "content-encoding").set "content-encoding" ["gzip"])).1.get_first
        "content-encoding" = some "gzip" := by
    rw [ODictCaseless.get_first_eq_head, ODictCaseless.getAll_replace,
      ODictCaseless.getAll_set_self]
    simp [hpat]
  have hne : ¬ (encEncode "gzip" (safe_subn pat repl d).1 = "" ∨ "gzip" ∉ ENCODINGS) := by
    simp [encEncode_gzip_ne_empty, gzip_mem_ENCODINGS]
  have hdec' : MessageMixin.decode
      { m with
          body := .bytes (encEncode "gzip" (safe_subn pat repl d).1),
          headers := (ODictCaseless.replace pat repl
            ((m.headers.del "content-encoding").set "content-encoding" ["gzip"])).1 }
      = (true,
        { m with
            body := .bytes (safe_subn pat repl d).1,
            headers := ((ODictCaseless.replace pat repl
              ((m.headers.del "content-encoding").set "content-encoding" ["gzip"])).1).del
                "content-encoding" }) := by
    simp only [MessageMixin.decode, hget]
    rw [if_neg hne, encDecode_encEncode]
  exact ⟨_, _, heq, hget, by rw [hdec'], by rw [hdec']⟩

/-- C3 witness: the sample gzip message with the substitution
`"foo" ↦ "bar"`. -/
theorem claim_C3_witness :
    ∃ n m', MessageMixin.replace "foo" "bar" sampleMsg = some (n, m') ∧
      m'.headers.get_first "content-encoding" = some "gzip" ∧
      (MessageMixin.decode m').1 = true ∧
      (MessageMixin.decode m').2.body = .bytes "hello bar" := by
  obtain ⟨n, m', h1, h2, h3, h4⟩ := claim_C3 sampleMsg "foo" "bar"
    (encEncode "gzip" "hello foo") "hello foo" (by decide) (by decide) (by decide)
    (by decide)
  exact ⟨n, m', h1, h2, h3, h4⟩

/-- C4: `decode()` returns failure leaving the message exactly unchanged
whenever the body is empty or missing, the first `content-encoding` value
is not a supported encoding, or the codec's decode fails; on success it
returns `True`, replaces the body with the decoded bytes and removes the
`content-encoding` header entirely. -/
theorem claim_C4 (m : MessageS) :
    (m.body.truthy = false → MessageMixin.decode m = (false, m)) ∧
    ((∀ c, m.headers.get_first "content-encoding" = some c → c ∉ ENCODINGS) →
      MessageMixin.decode m = (false, m)) ∧
    (∀ c s, m.headers.get_first "content-encoding" = some c → c ∈ ENCODINGS →
      m.body = .bytes s → s ≠ "" →
      (encDecode c s = none → MessageMixin.decode m = (false, m)) ∧
      (∀ d, encDecode c s = some d →
        MessageMixin.decode m =
          (true, { m with body := .bytes d,
                          headers := m.headers.del "content-encoding" }) ∧
        (MessageMixin.decode m).2.headers.getAll "content-encoding" = [])) := by
  refine ⟨?_, ?_, ?_⟩
  · intro ht
    cases hb : m.body with
    | missing =>
      cases hce : m.headers.get_first "content-encoding" <;>
        simp [MessageMixin.decode, hce, hb]
    | bytes s =>
      have hs : s = "" := by
        rw [hb] at ht
        simpa [BodyVal.truthy] using ht
      cases hce : m.headers.get_first "content-encoding" <;>
        simp [MessageMixin.decode, hce, hb, hs]
  · intro hns
    cases hb : m.body with
    | missing =>
      cases hce : m.headers.get_first "content-encoding" <;>
        simp [MessageMixin.decode, hce, hb]
    | bytes s =>
      cases hce : m.headers.get_first "content-encoding" with
      | none => simp [MessageMixin.decode, hce, hb]
      | some c =>
        have : c ∉ ENCODINGS := hns c hce
        simp [MessageMixin.decode, hce, hb, this]
  · intro c s hce hmem hb hs
    constructor
    · intro hdec
      simp [MessageMixin.decode, hce, hb, hs, hmem, hdec]
    · intro d hdec
      have heq : MessageMixin.decode m =
          (true, { m with body := .bytes d,
                          headers := m.headers.del "content-encoding" }) := by
        simp [MessageMixin.decode, hce, hb, hs, hmem, hdec]
      refine ⟨heq, ?_⟩
      rw [heq]
      exact ODictCaseless.getAll_del_self m.headers "content-encoding"

/-- C4 witness: on the sample gzip message, decode succeeds, yields the
plaintext and strips the `content-encoding` header; on a tampered body the
codec fails and the message is unchanged. -/
theorem claim_C4_witness :
    MessageMixin.decode sampleMsg =
      (true, { sampleMsg with body := .bytes "hello foo",
                              headers := sampleMsg.headers.del "content-encoding" }) ∧
    (MessageMixin.decode sampleMsg).2.headers.getAll "content-encoding" = [] ∧
    MessageMixin.decode ⟨(1, 1), sampleHeaders, .bytes "mangled", some 0, some 1⟩ =
      (false, ⟨(1, 1), sampleHeaders, .bytes "mangled", some 0, some 1⟩) := by
  have h1 := ((claim_C4 sampleMsg).2.2 "gzip" (encEncode "gzip" "hello foo")
    (by decide) (by decide) rfl (by decide)).2 "hello foo" (by decide)
  have h2 := ((claim_C4 ⟨(1, 1), sampleHeaders, .bytes "mangled", some 0, some 1⟩).2.2
    "gzip" "mangled" (by decide) (by decide) rfl (by decide)).1 (by decide)
  exact ⟨h1.1, h1.2, h2⟩

/-- C8 witness: concrete instances — a null filter matches the empty flow,
an uncompilable expression raises, a compiled expression evaluates. -/
theorem claim_C8_witness :
    HTTPFlow.matchf flow0 .nofilter = .ok true ∧
    HTTPFlow.matchf flow0 (.text "~invalid[[[") = .valueError ∧
    HTTPFlow.matchf flow0 (.text "~q") = .ok false := by
  refine ⟨(claim_C8_amended flow0).1, ?_, ?_⟩
  · exact (claim_C8_amended flow0).2.1 "~invalid[[[" rfl
  · exact (claim_C8_amended flow0).2.2.1 "~q" (fun fl => fl.request.isSome) rfl

end Mitm
